import Mathlib

/-!
Verification development for the EtherCAT master core (interface, cyclic
engine, AL-state-transfer and SDO-download state machines).

Shallow embedding conventions:
* machine integers (`u8`, `u16`, `usize`, `u64`) become `Nat`; masking with
  `% 2 ^ w` is applied only where the source can overflow;
* slices of bytes become `List Nat`;
* Rust panics (out-of-bounds indexing, `unreachable!`, failed `assert!`)
  are modelled by returning `none` from an `Option`-valued function;
* `Result<T, E>` becomes `Except E T`.

Rust debug-mode underflow on `usize` subtraction is not modelled: `Nat`
subtraction truncates at zero.  All theorems below stay in the region where
no subtraction underflows.
-/

/-- Modelled from the spec: the wire-format constants of
`packet::ethercat` are not under `src/`.  Spec section 6 fixes them:
Ethernet II header 14 bytes, EtherCAT frame header 2 bytes,
PDU header 10 bytes, working-counter trailer 2 bytes. -/
def ETHERNET_HEADER_LENGTH : Nat := 14

/-- EtherCAT frame header length in bytes (spec section 4.A: 2 bytes). -/
def ETHERCAT_HEADER_LENGTH : Nat := 2

/-- EtherCAT PDU (datagram) header length in bytes (spec section 3: 10 bytes). -/
def ETHERCATPDU_HEADER_LENGTH : Nat := 10

/-- Working-counter trailer length in bytes (spec section 3: 2 bytes). -/
def WKC_LENGTH : Nat := 2

/-- `error::CommonError`, restricted to the variants used by
`src/interface.rs` (`BufferExhausted`, `DeviceErrorTx`, `DeviceErrorRx`,
`ReceiveTimeout`; `src/cyclic.rs` spells the last one `RecieveTimeout`). -/
inductive CommonError where
  | bufferExhausted
  | deviceErrorTx
  | deviceErrorRx
  | receiveTimeout
deriving DecidableEq

/-- One bounds-checked byte store, `buffer[i] = v`.  Out-of-bounds indexing
panics in Rust; here it yields `none`. -/
def writeByte (buffer : List Nat) (i v : Nat) : Option (List Nat) :=
  if i < buffer.length then some (buffer.set i v) else none

/-- `dst[start..start + src.len()].copy_from_slice(src)`, byte by byte;
`none` when the destination range leaves the buffer. -/
def setRange (dst : List Nat) (start : Nat) : List Nat → Option (List Nat)
  | [] => some dst
  | b :: bs =>
    match writeByte dst start b with
    | none => none
    | some d => setRange d (start + 1) bs

/-- Modelled from the spec: the `EtherCATPDU` header encoder of
`packet::ethercat` is not under `src/`.  Spec section 6 gives the layout:
byte 0 command type, byte 1 index, bytes 2-3 ADP (LE), bytes 4-5 ADO (LE),
bytes 6-7 an 11-bit length plus flag bits (zero here), bytes 8-9 IRQ (zero).
`add_command` in `src/interface.rs` fills exactly these fields. -/
def pduHeaderBytes (pduIndex cmdType adp ado len : Nat) : List Nat :=
  [cmdType % 256, pduIndex % 256,
   adp % 256, adp / 256 % 256,
   ado % 256, ado / 256 % 256,
   len % 256, len / 256 % 8,
   0, 0]

/-- `EtherCATInterface::remaing_capacity` (sic), `src/interface.rs` lines
42-44: `buffer_size - data_size - ETHERCAT_HEADER_LENGTH - WKC_LENGTH`. -/
def remaing_capacity (buffer_size data_size : Nat) : Nat :=
  buffer_size - data_size - ETHERCAT_HEADER_LENGTH - WKC_LENGTH

/-- `EtherCATInterface::add_command`, `src/interface.rs` lines 46-90.
State is `(buffer, data_size)`; `buffer_size` is `buffer.length` (set at
construction from the slice length). The payload writer is modelled by the
byte list it writes (`data_size` bytes copied into the payload slice).
Returns the staging result: `some (.ok (buffer', data_size'))` on success,
`some (.error .bufferExhausted)` on either guard, `none` when a buffer
write panics out of bounds.  The two stores after the payload are at
offsets `+ 1` and `+ 2` past the payload exactly as in lines 85-86. -/
def add_command (buffer : List Nat) (data_size mtu : Nat)
    (pdu_index command adp ado : Nat) (payload : List Nat) :
    Option (Except CommonError (List Nat × Nat)) :=
  let n := payload.length
  if data_size + ETHERCAT_HEADER_LENGTH + n + WKC_LENGTH > buffer.length then
    some (.error .bufferExhausted)
  else if n > mtu - (ETHERNET_HEADER_LENGTH + ETHERCAT_HEADER_LENGTH +
      ETHERCATPDU_HEADER_LENGTH + WKC_LENGTH) then
    some (.error .bufferExhausted)
  else
    match setRange buffer data_size (pduHeaderBytes pdu_index command adp ado n) with
    | none => none
    | some b1 =>
      match setRange b1 (data_size + ETHERCATPDU_HEADER_LENGTH) payload with
      | none => none
      | some b2 =>
        match writeByte b2 (data_size + ETHERCATPDU_HEADER_LENGTH + n + 1) 0 with
        | none => none
        | some b3 =>
          match writeByte b3 (data_size + ETHERCATPDU_HEADER_LENGTH + n + 2) 0 with
          | none => none
          | some b4 =>
            some (.ok (b4, data_size + ETHERCATPDU_HEADER_LENGTH + n + WKC_LENGTH))

/-- The inner accumulation loop of `EtherCATInterface::transmit`,
`src/interface.rs` lines 126-136: walk the staged PDUs from the start,
admitting a PDU while `mtu > send_size + pdu_length`, stopping at the
first that does not fit.  Input is the list of `pdu.length()` payload
sizes; `pdu_length` is payload + header + WKC.  Returns
(admitted count, final send_size). -/
def greedyScan (mtu : Nat) (send_size : Nat) : List Nat → Nat × Nat
  | [] => (0, send_size)
  | l :: ls =>
    let pdu_length := l + ETHERCATPDU_HEADER_LENGTH + WKC_LENGTH
    if mtu > send_size + pdu_length then
      let r := greedyScan mtu (send_size + pdu_length) ls
      (r.1 + 1, r.2)
    else (0, send_size)

/-- The outer loop of `EtherCATInterface::transmit`, lines 124-166.  Each
iteration rescans the staged PDU list from index 0 (exactly as the source
does), sets `send_count := actual_send_count + admitted`, emits one frame of
`ETHERNET_HEADER_LENGTH + ETHERCAT_HEADER_LENGTH + send_size` bytes
containing PDUs `[actual_send_count, min send_count total)`, and advances
`actual_send_count`.  A frame is recorded as
(frame byte length, first PDU index, past-the-end PDU index).  `fuel`
bounds the outer `while`; the source loops forever when no PDU is ever
admitted. -/
def transmitLoop (mtu : Nat) (pduLens : List Nat) (actual : Nat) :
    Nat → List (Nat × Nat × Nat)
  | 0 => []
  | fuel + 1 =>
    if actual < pduLens.length then
      let r := greedyScan mtu 0 pduLens
      let send_count := actual + r.1
      let stop := min send_count pduLens.length
      let frame := (ETHERNET_HEADER_LENGTH + ETHERCAT_HEADER_LENGTH + r.2, actual, stop)
      if stop ≤ actual then
        frame :: transmitLoop mtu pduLens actual fuel
      else
        frame :: transmitLoop mtu pduLens stop fuel
    else []

/-- `EtherCATInterface::transmit` viewed as the frames it emits, one entry
per `ethdev.send` call. -/
def transmit (mtu : Nat) (pduLens : List Nat) : List (Nat × Nat × Nat) :=
  transmitLoop mtu pduLens 0 (pduLens.length + 1)

/-- `slave::AlState` as used by `src/cyclic/al_state_transfer.rs` (which
matches on an `InvalidOrMixed` variant where `src/slave.rs` has `Invalid`;
the variant set below is the one the state machine dispatches on). -/
inductive AlState where
  | init
  | preOperational
  | bootstrap
  | safeOperational
  | operational
  | invalidOrMixed
deriving DecidableEq

/-- `interface::Command`: command type (as its `u8` code), ADP and ADO.
Equality compares all three fields. -/
structure Command where
  c_type : Nat
  adp : Nat
  ado : Nat
deriving DecidableEq

/-- `interface::TargetSlave`: a single addressed slave or all slaves with
an expected count. -/
inductive TargetSlave where
  | single (address : Nat)
  | all (num_slaves : Nat)
deriving DecidableEq

/-- `cyclic::al_state_transfer::Error`: unit-specific errors.  The
`AlStatusCode` payload enum lives outside `src/`; the raw status code is
kept as a `Nat`. -/
inductive AlstErr where
  | timeoutMs (ms : Nat)
  | alStatusCode (st : AlState) (code : Nat)
deriving DecidableEq

/-- `error::EcError`, restricted to the variants produced by
`al_state_transfer.rs`: `UnexpectedCommand`, `UnexpectedWKC(u16)`,
`LostCommand`, and the unit-specific wrapper. -/
inductive EcErr where
  | unexpectedCommand
  | unexpectedWKC (wkc : Nat)
  | lostCommand
  | unitSpecific (e : AlstErr)
deriving DecidableEq

/-- `al_state_transfer::State` (lines 50-61). -/
inductive AlstState where
  | error (e : EcErr)
  | idle
  | read
  | resetError (al : AlState)
  | offAck (al : AlState)
  | resetSiiOwnership
  | request
  | poll
  | complete
deriving DecidableEq

/-- Modelled from the spec: the decoded view of an `AlStatus` register
reply.  The bitfield accessors (`register::application::AlStatus::state`,
`change_err`, `al_status_code`) are not under `src/`; the state machine
only consumes these three decoded fields of the reply payload. -/
structure AlStatusView where
  state : AlState
  change_err : Bool
  al_status_code : Nat
deriving DecidableEq

/-- `cyclic::ReceivedData` as consumed by `al_state_transfer.rs`: the
echoed command, the reply payload (kept as its decoded `AlStatus` view),
and the working counter. -/
structure RD where
  command : Command
  status : AlStatusView
  wkc : Nat
deriving DecidableEq

/-- The fields of `AlStateTransfer` (lines 63-73) that
`recieve_and_process` reads or writes.  The scratch `buffer` only feeds
`next_command` and is omitted. -/
structure ALST where
  timer_start : Nat
  state : AlstState
  slave_address : TargetSlave
  target_al : AlState
  command : Command
  current_al_state : AlState
  timeout_ms : Nat
deriving DecidableEq

/-- The working counter each target expects (lines 225-236): `Single`
expects 1, `All(n)` expects `n`. -/
def expectedWkc : TargetSlave → Nat
  | .single _ => 1
  | .all n => n

/-- `AlStateTransfer::recieve_and_process`, `src/cyclic/al_state_transfer.rs`
lines 213-288.  A missing reply latches `LostCommand` and returns.  For a
present reply the command check (lines 222-224) runs first and the WKC
check (lines 225-236) runs second, each overwriting `state`; the
transition `match` then runs on the updated state.  `sys_time` is
`EtherCatSystemTime`, nanoseconds since 2000-01-01 (`src/cyclic.rs` line 21).
The timeout arm multiplies `timeout_ms` by 1000 exactly as line 282 does. -/
def alst_recieve_and_process (u : ALST) (recv_data : Option RD) (sys_time : Nat) : ALST :=
  match recv_data with
  | none => { u with state := .error .lostCommand }
  | some rd =>
    let s1 := if ¬(rd.command.c_type = u.command.c_type ∧ rd.command.ado = u.command.ado)
      then AlstState.error .unexpectedCommand else u.state
    let s2 := if rd.wkc ≠ expectedWkc u.slave_address
      then AlstState.error (.unexpectedWKC rd.wkc) else s1
    let u := { u with state := s2 }
    match u.state with
    | .idle => u
    | .error _ => u
    | .complete => u
    | .read =>
      let al_state := rd.status.state
      let u := { u with current_al_state := al_state }
      if al_state = u.target_al then
        { u with state := .complete }
      else if rd.status.change_err then
        let non_mixed := match al_state with
          | .invalidOrMixed => AlState.init
          | _ => al_state
        { u with state := .resetError non_mixed }
      else
        { u with state := .resetSiiOwnership }
    | .resetError al => { u with state := .offAck al }
    | .offAck _ => { u with state := .read }
    | .resetSiiOwnership => { u with state := .request }
    | .request => { u with timer_start := sys_time, state := .poll }
    | .poll =>
      let al_state := rd.status.state
      let u := { u with current_al_state := al_state }
      if u.target_al = al_state then
        { u with state := .complete }
      else if rd.status.change_err then
        { u with state := .error (.unitSpecific (.alStatusCode al_state rd.status.al_status_code)) }
      else if u.timer_start < sys_time ∧ u.timeout_ms * 1000 < sys_time - u.timer_start then
        { u with state := .error (.unitSpecific (.timeoutMs u.timeout_ms)) }
      else u

/-- Outcome of the `ReadDownloadResponse` parse in
`src/cyclic/sdo_downloader.rs` lines 191-207. -/
inductive SdoDlOutcome where
  | complete
  | errAbortCode (code : Nat)
  | errUnexpectedResponse
deriving DecidableEq

/-- Modelled from the spec: `packet::ethercat::MailboxHeader::SIZE` is not
under `src/`; spec section 6 fixes the mailbox header at 6 bytes. -/
def MailboxHeader_SIZE : Nat := 6

/-- Modelled from the spec: `packet::coe::CoEHeader::SIZE` is not under
`src/`; spec section 6 fixes the CoE header at 2 bytes. -/
def CoEHeader_SIZE : Nat := 2

/-- Modelled from the spec: `packet::coe::SdoHeader::SIZE` is not under
`src/`; spec section 6 fixes the SDO header at 4 bytes (command byte,
2-byte index, 1-byte sub-index). -/
def SdoHeader_SIZE : Nat := 4

/-- Modelled from the spec: `SdoHeader::command_specifier` reads bits 0-2
of the first byte of the view it wraps (spec section 6). -/
def commandSpecifier (view : List Nat) : Nat := view.getD 0 0 % 8

/-- Little-endian `u32` from four bytes. -/
def u32le (b0 b1 b2 b3 : Nat) : Nat := b0 + 256 * b1 + 65536 * b2 + 16777216 * b3

/-- The `Ok` arm of `State::ReadDownloadResponse` in
`SdoDownloader::recieve_and_process`, `src/cyclic/sdo_downloader.rs` lines
191-207, applied to the mailbox reader's buffer (the received mailbox
frame, header first).  `SdoHeader` is applied at offset
`MailboxHeader::SIZE` exactly as line 192 does; the abort code is read by
zipping a `[0; 4]` array with the view's bytes from `SdoHeader::SIZE` on
(absent bytes stay zero), then decoding little-endian. -/
def parse_download_response (buffer : List Nat) : SdoDlOutcome :=
  let sdo_view := buffer.drop MailboxHeader_SIZE
  if commandSpecifier sdo_view = 4 then
    let tail := sdo_view.drop SdoHeader_SIZE
    .errAbortCode (u32le (tail.getD 0 0) (tail.getD 1 0) (tail.getD 2 0) (tail.getD 3 0))
  else if commandSpecifier sdo_view ≠ 3 then
    .errUnexpectedResponse
  else
    .complete

/-- `cyclic::Unit` (lines 54-58): a slot is either the free-list cell
`NextFreeUnit(next)` or an occupied unit with its `sent_flag`.  The
protocol payload `C` does not affect slot bookkeeping or dispatch routing
and is omitted. -/
inductive CUnit where
  | nextFreeUnit (next : Nat)
  | unit (sent : Bool)
deriving DecidableEq

/-- The slot-allocator state of `cyclic::CyclicUnits`: the `units` vector
(heapless capacity 10) and the `free_unit` head handle. -/
structure Engine where
  units : List CUnit
  free : Nat
deriving DecidableEq

/-- The fixed capacity of `Vec<Unit<C>, 10>`. -/
def UNITS_CAP : Nat := 10

/-- `CyclicUnits::new`: empty vector, free head 0. -/
def engineNew : Engine := { units := [], free := 0 }

/-- `CyclicUnits::add_unit`, `src/cyclic.rs` lines 108-125.  Returns
`some (state', some handle)` for `Ok(handle)`, `some (state', none)` for
`Err` (capacity reached), and `none` for the `unreachable!()` panic when
the free head names an occupied slot. -/
def add_unit (e : Engine) : Option (Engine × Option Nat) :=
  match e.units[e.free]? with
  | some (.nextFreeUnit next) =>
    some ({ units := e.units.set e.free (.unit false), free := next }, some e.free)
  | some (.unit _) => none
  | none =>
    if e.units.length < UNITS_CAP then
      some ({ units := e.units ++ [.unit false], free := e.free + 1 }, some e.free)
    else
      some (e, none)

/-- `CyclicUnits::remove_unit`, `src/cyclic.rs` lines 127-145.  The `Bool`
records whether a unit was returned (`Some(unit)` in the source). -/
def remove_unit (e : Engine) (handle : Nat) : Engine × Bool :=
  match e.units[handle]? with
  | some (.unit _) =>
    ({ units := e.units.set handle (.nextFreeUnit e.free), free := handle }, true)
  | _ => (e, false)

/-- One allocator call. -/
inductive AllocOp where
  | addU
  | removeU (handle : Nat)
deriving DecidableEq

/-- A sequence of `add_unit` / `remove_unit` calls, tallying successful
adds and removes; `none` propagates the `unreachable!()` panic. -/
def runOps (e : Engine) (adds removes : Nat) : List AllocOp → Option (Engine × Nat × Nat)
  | [] => some (e, adds, removes)
  | .addU :: rest =>
    match add_unit e with
    | none => none
    | some (e', some _) => runOps e' (adds + 1) removes rest
    | some (e', none) => runOps e' adds removes rest
  | .removeU h :: rest =>
    let r := remove_unit e h
    runOps r.1 adds (if r.2 then removes + 1 else removes) rest

/-- Number of Occupied slots. -/
def occCount (units : List CUnit) : Nat :=
  units.countP (fun u => match u with | .unit _ => true | _ => false)

/-- The free list threaded through `NextFreeUnit` cells: starting from
pointer `p`, the chain lists the visited slot indices and terminates when
the pointer reaches `units.length` (one past the vector, where `get_mut`
fails and `add_unit` switches to pushing). -/
inductive FreeChain (units : List CUnit) : Nat → List Nat → Prop
  | nil : FreeChain units units.length []
  | cons {p next : Nat} {l : List Nat} :
      units[p]? = some (.nextFreeUnit next) →
      FreeChain units next l →
      FreeChain units p (p :: l)

/-- The slot-allocator invariant: the free list from `free` is a
duplicate-free chain visiting exactly the indices whose slot is Free. -/
def EngineInv (e : Engine) : Prop :=
  ∃ L, FreeChain e.units e.free L ∧ L.Nodup ∧
    ∀ j, j ∈ L ↔ ∃ nx, e.units[j]? = some (.nextFreeUnit nx)

/-- The lost-reply loop of `CyclicUnits::process` (lines 216-223 and
239-246): visit `count` slot indices starting at `lo`; every slot holding
a unit with `sent_flag = true` receives `recieve_and_process(None)`
(logged as `(index, false)`) and has its flag cleared. -/
def notifySlots (units : List CUnit) (lo : Nat) : Nat → List (Nat × Bool) × List CUnit
  | 0 => ([], units)
  | count + 1 =>
    match units[lo]? with
    | some (.unit true) =>
      let r := notifySlots (units.set lo (.unit false)) (lo + 1) count
      ((lo, false) :: r.1, r.2)
    | _ => notifySlots units (lo + 1) count

/-- The per-PDU walk of `CyclicUnits::process` (lines 213-238): for each
received PDU index, notify the sent slots strictly between `last_index`
and it, then deliver `Some(ReceivedData)` (logged as `(index, true)`) to
its own slot if occupied — panicking (`none`) when the `assert!(*sent)` of
line 233 fails — and set `last_index := index + 1`.  Returns the event
log, the updated slots and the final `last_index`. -/
def dispatchPdus (units : List CUnit) (last : Nat) :
    List Nat → Option (List (Nat × Bool) × List CUnit × Nat)
  | [] => some ([], units, last)
  | idx :: rest =>
    let r1 := notifySlots units last (idx - last)
    match r1.2[idx]? with
    | some (.unit sent) =>
      if sent then
        match dispatchPdus (r1.2.set idx (.unit false)) (idx + 1) rest with
        | none => none
        | some (evs, us, l3) => some (r1.1 ++ (idx, true) :: evs, us, l3)
      else none
    | _ =>
      match dispatchPdus r1.2 (idx + 1) rest with
      | none => none
      | some (evs, us, l3) => some (r1.1 ++ evs, us, l3)

/-- The dispatch pass of `CyclicUnits::process`, `src/cyclic.rs` lines
212-247: walk the received PDU indices from `last_index = 0`, then notify
every remaining sent slot up to `units.len()`. -/
def processCyclic (units : List CUnit) (pdus : List Nat) :
    Option (List (Nat × Bool) × List CUnit) :=
  match dispatchPdus units 0 pdus with
  | none => none
  | some (evs, u1, last) =>
    let r2 := notifySlots u1 last (u1.length - last)
    some (evs ++ r2.1, r2.2)

/-- `interface::RxRes` as consumed by `EtherCATInterface::poll` (lines
102-107; the `TimerError` arm is commented out in the source match). -/
inductive RxRes where
  | ok
  | deviceError
  | timeout
deriving DecidableEq

/-- `EtherCATInterface::poll`, `src/interface.rs` lines 98-109, as a
function of the transmit success and the receive outcome. -/
def iface_poll (tx_ok : Bool) (rx : RxRes) : Except CommonError Unit :=
  if ¬tx_ok then .error .deviceErrorTx
  else
    match rx with
    | .ok => .ok ()
    | .deviceError => .error .deviceErrorRx
    | .timeout => .error .receiveTimeout

/-- The error handling at the head of `CyclicUnits::process`,
`src/cyclic.rs` lines 207-211: `Ok` and `RecieveTimeout` fall through to
the dispatch pass, any other interface error is returned. -/
def engineProcess (units : List CUnit) (pollRes : Except CommonError Unit)
    (pdus : List Nat) :
    Except CommonError (Option (List (Nat × Bool) × List CUnit)) :=
  match pollRes with
  | .ok _ => .ok (processCyclic units pdus)
  | .error .receiveTimeout => .ok (processCyclic units pdus)
  | .error e => .error e

/-- C1.  The claim fails on the code: `remaing_capacity` does return
`buffer_size - data_size - ETHERCAT_HEADER_LENGTH - WKC_LENGTH` (here
16 - 0 - 2 - 2 = 12), but a payload of that very size, although it passes
both guards of `add_command` (so `BufferExhausted` is not returned), does
NOT fit: the PDU needs `ETHERCATPDU_HEADER_LENGTH` (10) + 12 + 2 = 24 bytes
while only 16 remain, and the payload copy indexes past the buffer
(`none` = the Rust panic at `src/interface.rs` line 80).  The capacity
formula subtracts the 2-byte frame-header constant where the 10-byte PDU
header is what `add_command` writes. -/
theorem C1_remaining_capacity_contract_violated :
    remaing_capacity 16 0 = 12 ∧
    (List.replicate 12 0).length ≤ remaing_capacity 16 0 ∧
    (List.replicate 12 0).length ≤ 1500 - (ETHERNET_HEADER_LENGTH +
      ETHERCAT_HEADER_LENGTH + ETHERCATPDU_HEADER_LENGTH + WKC_LENGTH) ∧
    add_command (List.replicate 16 0) 0 1500 255 4 0 0 (List.replicate 12 0) = none := by
  refine ⟨rfl, by decide, by decide, rfl⟩

/-- C2.  The claim fails on the code: with `max_transmission_unit = 100`
and two staged PDUs of payload sizes 38 and 37 (each individually within
`add_command`'s MTU guard of `100 - 28 = 72`), the greedy loop of
`transmit` admits both because it compares the accumulated PDU bytes
(50 + 49 = 99) against the MTU without the Ethernet + EtherCAT header
overhead, and emits a single frame of 14 + 2 + 99 = 115 > 100 bytes. -/
theorem C2_transmit_frame_exceeds_mtu :
    transmit 100 [38, 37] = [(115, 0, 2)] ∧
    100 < 115 ∧
    38 ≤ 100 - (ETHERNET_HEADER_LENGTH + ETHERCAT_HEADER_LENGTH +
      ETHERCATPDU_HEADER_LENGTH + WKC_LENGTH) ∧
    37 ≤ 100 - (ETHERNET_HEADER_LENGTH + ETHERCAT_HEADER_LENGTH +
      ETHERCATPDU_HEADER_LENGTH + WKC_LENGTH) := by
  refine ⟨rfl, by decide, by decide, by decide⟩

/-- C5.  The claim fails on the code: in the `Poll` state, with a valid
reply (matching command, WKC = 1 for a `Single` target) showing neither
the target AL state nor the change-error flag, the unit latches
`Error(TimeoutMs(1))` already at `sys_time - timer_start = 2000` ns,
because line 282 of `src/cyclic/al_state_transfer.rs` compares the elapsed
nanoseconds against `timeout_ms * 1000`, not `timeout_ms * 1000000`
(system time is nanoseconds per `src/cyclic.rs` line 21). -/
theorem C5_poll_timeout_scaling_bug :
    (alst_recieve_and_process
      { timer_start := 0, state := .poll, slave_address := .single 9, target_al := .init,
        command := { c_type := 4, adp := 9, ado := 304 },
        current_al_state := .init, timeout_ms := 1 }
      (some { command := { c_type := 4, adp := 9, ado := 304 },
              status := { state := .preOperational, change_err := false, al_status_code := 0 },
              wkc := 1 }) 2000).state = .error (.unitSpecific (.timeoutMs 1)) ∧
    ¬ (1 * 1000000 < 2000 - 0) ∧
    AlState.preOperational ≠ AlState.init := by
  refine ⟨rfl, by decide, by decide⟩

/-- C6.  The claim fails on the code (against the spec-modelled mailbox,
CoE and SDO header layouts): a well-formed SDO download response — 6-byte
mailbox header, 2-byte CoE header, then the SDO header whose
command-specifier is 3 — is parsed as `Error(UnexpectedResponse)` instead
of `Complete`, because line 192 of `src/cyclic/sdo_downloader.rs` applies
the `SdoHeader` view at offset `MailboxHeader::SIZE`, skipping no CoE
header, so the specifier is read from the CoE header's first byte (0). -/
theorem C6_sdo_parse_offset_bug :
    parse_download_response
      ([8, 0, 0, 0, 0, 51] ++ [0, 48] ++ [3, 52, 18, 2]) = .errUnexpectedResponse ∧
    commandSpecifier
      (([8, 0, 0, 0, 0, 51] ++ [0, 48] ++ [3, 52, 18, 2]).drop
        (MailboxHeader_SIZE + CoEHeader_SIZE)) = 3 := by
  refine ⟨rfl, by decide⟩

/-- C7.  The claim fails on the code: a successful `add_command` does
write the header at `data_size`, copy the payload, and advance `data_size`
by header + payload + WKC, but it zeroes bytes `+ 1` and `+ 2` past the
payload instead of `+ 0` and `+ 1` (`src/interface.rs` lines 85-86), so
the first byte of the WKC trailer keeps its stale value (7 here) and the
byte just past the PDU is zeroed instead. -/
theorem C7_wkc_trailer_off_by_one :
    add_command (List.replicate 32 7) 0 1500 3 4 5 6 [] =
      some (.ok (pduHeaderBytes 3 4 5 6 0 ++ [7, 0, 0] ++ List.replicate 19 7,
        0 + ETHERCATPDU_HEADER_LENGTH + 0 + WKC_LENGTH)) ∧
    (pduHeaderBytes 3 4 5 6 0 ++ [7, 0, 0] ++ List.replicate 19 7).getD 10 99 = 7 ∧
    (pduHeaderBytes 3 4 5 6 0 ++ [7, 0, 0] ++ List.replicate 19 7).getD 11 99 = 0 ∧
    (pduHeaderBytes 3 4 5 6 0 ++ [7, 0, 0] ++ List.replicate 19 7).getD 12 99 = 0 ∧
    (7 : Nat) ≠ 0 := by
  refine ⟨rfl, by decide, by decide, by decide, by decide⟩

/-- C8 counterexample.  The claim, as stated, is false on the code: a
reply whose command differs from the last emitted command but whose
working counter also mismatches ends in `Error(UnexpectedWKC(0))`, not
`Error(UnexpectedCommand)` — the WKC check (lines 225-236 of
`src/cyclic/al_state_transfer.rs`) runs after the command check and
overwrites its verdict. -/
theorem C8_wkc_overwrites_command_error :
    (alst_recieve_and_process
      { timer_start := 0, state := .read, slave_address := .single 9, target_al := .init,
        command := { c_type := 4, adp := 9, ado := 304 },
        current_al_state := .init, timeout_ms := 1 }
      (some { command := { c_type := 7, adp := 9, ado := 304 },
              status := { state := .init, change_err := false, al_status_code := 0 },
              wkc := 0 }) 0).state = .error (.unexpectedWKC 0) ∧
    AlstState.error (.unexpectedWKC 0) ≠ .error .unexpectedCommand ∧
    (7 : Nat) ≠ 4 := by
  refine ⟨rfl, by decide, by decide⟩

/-- C8 (amended).  On every reply delivered to `AlStateTransfer`: a
missing reply latches `Error(LostCommand)`; a working counter different
from the expected one (1 for `Single`, `n` for `All(n)`) latches
`Error(UnexpectedWKC(wkc))` — taking precedence over a simultaneous
command mismatch; and a reply whose command type or ADO differs from the
last emitted command, with a matching working counter, latches
`Error(UnexpectedCommand)`. -/
theorem C8_reply_validation (u : ALST) (sys_time : Nat) :
    ((alst_recieve_and_process u none sys_time).state = .error .lostCommand) ∧
    (∀ rd : RD, rd.wkc ≠ expectedWkc u.slave_address →
      (alst_recieve_and_process u (some rd) sys_time).state = .error (.unexpectedWKC rd.wkc)) ∧
    (∀ rd : RD, rd.wkc = expectedWkc u.slave_address →
      ¬(rd.command.c_type = u.command.c_type ∧ rd.command.ado = u.command.ado) →
      (alst_recieve_and_process u (some rd) sys_time).state = .error .unexpectedCommand) := by
  refine ⟨rfl, fun rd hw => ?_, fun rd hw hc => ?_⟩
  · simp only [alst_recieve_and_process, if_pos hw]
  · have hw' : ¬(rd.wkc ≠ expectedWkc u.slave_address) := not_not_intro hw
    simp only [alst_recieve_and_process, if_neg hw', if_pos hc]

/-- C8 witness: the three arms of `C8_reply_validation` at concrete
inputs. -/
theorem C8_reply_validation_witness :
    ((alst_recieve_and_process
      { timer_start := 0, state := .idle, slave_address := .all 3, target_al := .init,
        command := { c_type := 7, adp := 0, ado := 304 },
        current_al_state := .init, timeout_ms := 5000 } none 17).state
      = .error .lostCommand) ∧
    ((alst_recieve_and_process
      { timer_start := 0, state := .idle, slave_address := .all 3, target_al := .init,
        command := { c_type := 7, adp := 0, ado := 304 },
        current_al_state := .init, timeout_ms := 5000 }
      (some { command := { c_type := 7, adp := 0, ado := 304 },
              status := { state := .init, change_err := false, al_status_code := 0 },
              wkc := 5 }) 17).state = .error (.unexpectedWKC 5)) ∧
    ((alst_recieve_and_process
      { timer_start := 0, state := .idle, slave_address := .all 3, target_al := .init,
        command := { c_type := 7, adp := 0, ado := 304 },
        current_al_state := .init, timeout_ms := 5000 }
      (some { command := { c_type := 8, adp := 0, ado := 304 },
              status := { state := .init, change_err := false, al_status_code := 0 },
              wkc := 3 }) 17).state = .error .unexpectedCommand) := by
  refine ⟨(C8_reply_validation _ 17).1,
    (C8_reply_validation _ 17).2.1 _ (by decide),
    (C8_reply_validation _ 17).2.2 _ (by decide) (by decide)⟩

/-- C10.  `remove_unit` on a handle that does not name an Occupied slot —
the slot is a Free cell or the index is at or beyond `units.len()` —
returns `None` and leaves the whole engine state (every slot, the free
head, the slot count) unchanged. -/
theorem C10_remove_unit_nonoccupied (e : Engine) (handle : Nat)
    (hfree : ∀ s, e.units[handle]? ≠ some (.unit s)) :
    remove_unit e handle = (e, false) := by
  unfold remove_unit
  rcases hh : e.units[handle]? with _ | u
  · rfl
  · cases u with
    | nextFreeUnit nx => rfl
    | unit s => exact absurd hh (hfree s)

/-- C10 witness: a Free slot (index 0) and an out-of-range index (5). -/
theorem C10_remove_unit_nonoccupied_witness :
    remove_unit { units := [CUnit.nextFreeUnit 2, CUnit.unit true], free := 0 } 0 =
      ({ units := [CUnit.nextFreeUnit 2, CUnit.unit true], free := 0 }, false) ∧
    remove_unit { units := [CUnit.nextFreeUnit 2, CUnit.unit true], free := 0 } 5 =
      ({ units := [CUnit.nextFreeUnit 2, CUnit.unit true], free := 0 }, false) :=
  ⟨C10_remove_unit_nonoccupied _ 0 (by decide),
   C10_remove_unit_nonoccupied _ 5 (by decide)⟩

theorem getElem?_some_lt {α : Type} {l : List α} {j : Nat} {x : α} (h : l[j]? = some x) :
    j < l.length := by
  by_contra hh
  rw [List.getElem?_eq_none (by omega)] at h
  exact Option.noConfusion h

theorem FreeChain_cases {units : List CUnit} {p : Nat} {L : List Nat} (hc : FreeChain units p L) :
    (p = units.length ∧ L = []) ∨
    (∃ next rest, L = p :: rest ∧ units[p]? = some (.nextFreeUnit next) ∧
      FreeChain units next rest) := by
  cases hc with
  | nil => exact Or.inl ⟨rfl, rfl⟩
  | cons hp hrest => exact Or.inr ⟨_, _, rfl, hp, hrest⟩

theorem FreeChain_set_of_not_mem {units : List CUnit} {p : Nat} {L : List Nat}
    (hc : FreeChain units p L) (i : Nat) (x : CUnit) (hi : i ∉ L) :
    FreeChain (units.set i x) p L := by
  induction hc with
  | nil =>
    rw [show units.length = (units.set i x).length from (List.length_set ..).symm]
    exact .nil
  | @cons p' next l hp _ ih =>
    have hne : i ≠ p' := fun h => hi (h ▸ List.mem_cons_self _ _)
    refine .cons ?_ (ih (fun h => hi (List.mem_cons_of_mem _ h)))
    rw [List.getElem?_set_ne hne]
    exact hp

theorem countP_set_some {l : List CUnit} {i : Nat} {b : CUnit} (h : l[i]? = some b)
    (a : CUnit) (p : CUnit → Bool) :
    (l.set i a).countP p + (if p b then 1 else 0) = l.countP p + (if p a then 1 else 0) := by
  induction l generalizing i with
  | nil => simp at h
  | cons hd tl ih =>
    match i with
    | 0 =>
      simp only [List.getElem?_cons_zero, Option.some_inj] at h
      subst h
      simp only [List.set_cons_zero, List.countP_cons]
      omega
    | i + 1 =>
      simp only [List.getElem?_cons_succ] at h
      simp only [List.set_cons_succ, List.countP_cons]
      have := ih h
      omega

theorem add_unit_spec (e : Engine) (he : EngineInv e) :
    ∃ e' ho, add_unit e = some (e', ho) ∧ EngineInv e' ∧
      ((∃ h, ho = some h ∧ occCount e'.units = occCount e.units + 1) ∨
        (ho = none ∧ e' = e)) := by
  obtain ⟨L, hc, nd, hm⟩ := he
  rcases hh : e.units[e.free]? with _ | u
  · -- free head out of range: push or Err
    have hfree : e.free = e.units.length ∧ L = [] := by
      rcases FreeChain_cases hc with ⟨h1, h2⟩ | ⟨next, rest, _, hp, _⟩
      · exact ⟨h1, h2⟩
      · rw [hp] at hh; exact Option.noConfusion hh
    obtain ⟨hfl, hL⟩ := hfree
    by_cases hlen : e.units.length < UNITS_CAP
    · refine ⟨{ units := e.units ++ [CUnit.unit false], free := e.free + 1 },
        some e.free, by simp [add_unit, hh, hlen], ?_, ?_⟩
      · refine ⟨[], ?_, List.nodup_nil, fun j => ?_⟩
        · have hl2 : (e.units ++ [CUnit.unit false]).length = e.free + 1 := by
            simp [hfl]
          rw [show e.free + 1 = (e.units ++ [CUnit.unit false]).length from hl2.symm]
          exact .nil
        · simp only [List.mem_nil_iff, false_iff]
          rintro ⟨nx, hnx⟩
          rw [List.getElem?_append] at hnx
          by_cases hj : j < e.units.length
          · rw [if_pos hj] at hnx
            have := (hm j).mpr ⟨nx, hnx⟩
            rw [hL] at this
            simp at this
          · rw [if_neg hj] at hnx
            rcases hm2 : j - e.units.length with _ | d
            · rw [hm2] at hnx
              simp at hnx
            · rw [hm2] at hnx
              simp at hnx
      · left
        exact ⟨e.free, rfl, by simp [occCount, List.countP_append]⟩
    · exact ⟨e, none, by simp [add_unit, hh, hlen], ⟨L, hc, nd, hm⟩, Or.inr ⟨rfl, rfl⟩⟩
  · cases u with
    | nextFreeUnit next =>
      -- pop the free head
      have hlt : e.free < e.units.length := getElem?_some_lt hh
      have hL : ∃ rest, L = e.free :: rest ∧ FreeChain e.units next rest := by
        rcases FreeChain_cases hc with ⟨h1, _⟩ | ⟨next', rest, hLr, hp, hrest⟩
        · omega
        · rw [hh] at hp
          have : next' = next := by
            injection hp with hp'
            injection hp' with hp''
            exact hp''.symm
          subst this
          exact ⟨rest, hLr, hrest⟩
      obtain ⟨rest, rfl, hrest⟩ := hL
      have hfnr : e.free ∉ rest := (List.nodup_cons.mp nd).1
      refine ⟨{ units := e.units.set e.free (CUnit.unit false), free := next },
        some e.free, by simp [add_unit, hh], ?_, ?_⟩
      · refine ⟨rest, FreeChain_set_of_not_mem hrest e.free (.unit false) hfnr,
          (List.nodup_cons.mp nd).2, fun j => ?_⟩
        by_cases hj : j = e.free
        · subst hj
          simp only [List.getElem?_set_eq_of_lt _ hlt]
          constructor
          · intro h; exact absurd h hfnr
          · rintro ⟨nx, hnx⟩
            exact Option.noConfusion hnx (fun h => CUnit.noConfusion h)
        · rw [List.getElem?_set_ne (fun h => hj h.symm)]
          rw [← hm j]
          simp [hj]
      · left
        refine ⟨e.free, rfl, ?_⟩
        have := countP_set_some hh (CUnit.unit false)
          (fun u => match u with | .unit _ => true | _ => false)
        simpa [occCount] using this
    | unit s =>
      -- the unreachable! arm cannot fire under the invariant
      exfalso
      have : e.free ∈ L := by
        rcases FreeChain_cases hc with ⟨h1, _⟩ | ⟨next', rest, hLr, _, _⟩
        · have := getElem?_some_lt hh
          omega
        · rw [hLr]; exact List.mem_cons_self _ _
      obtain ⟨nx, hnx⟩ := (hm _).mp this
      rw [hh] at hnx
      exact Option.noConfusion hnx (fun h => CUnit.noConfusion h)

theorem remove_unit_spec (e : Engine) (k : Nat) (he : EngineInv e) :
    EngineInv (remove_unit e k).1 ∧
      ((remove_unit e k).2 = true → occCount (remove_unit e k).1.units + 1 = occCount e.units) ∧
      ((remove_unit e k).2 = false → (remove_unit e k).1 = e) := by
  obtain ⟨L, hc, nd, hm⟩ := he
  rcases hh : e.units[k]? with _ | u
  · refine ⟨?_, ?_, ?_⟩ <;> simp [remove_unit, hh]
    exact ⟨L, hc, nd, hm⟩
  · cases u with
    | nextFreeUnit nx =>
      refine ⟨?_, ?_, ?_⟩ <;> simp [remove_unit, hh]
      exact ⟨L, hc, nd, hm⟩
    | unit s =>
      have hlt : k < e.units.length := getElem?_some_lt hh
      have hkL : k ∉ L := by
        intro hk
        obtain ⟨nx, hnx⟩ := (hm _).mp hk
        rw [hh] at hnx
        exact Option.noConfusion hnx (fun h => CUnit.noConfusion h)
      refine ⟨?_, ?_, ?_⟩
      · simp only [remove_unit, hh]
        refine ⟨k :: L, ?_, List.nodup_cons.mpr ⟨hkL, nd⟩, fun j => ?_⟩
        · refine .cons ?_ (FreeChain_set_of_not_mem hc k (.nextFreeUnit e.free) hkL)
          exact List.getElem?_set_eq_of_lt _ hlt
        · by_cases hj : j = k
          · subst hj
            simp only [List.mem_cons, true_or, true_iff]
            exact ⟨e.free, List.getElem?_set_eq_of_lt _ hlt⟩
          · rw [List.getElem?_set_ne (fun h => hj h.symm)]
            rw [List.mem_cons]
            rw [← hm j]
            simp [hj]
      · intro _
        simp only [remove_unit, hh]
        have := countP_set_some hh (CUnit.nextFreeUnit e.free)
          (fun u => match u with | .unit _ => true | _ => false)
        simpa [occCount] using this
      · intro hfalse
        simp [remove_unit, hh] at hfalse

theorem runOps_spec (ops : List AllocOp) :
    ∀ e adds removes, EngineInv e → occCount e.units + removes = adds →
    ∃ e' a' r', runOps e adds removes ops = some (e', a', r') ∧ EngineInv e' ∧
      occCount e'.units + r' = a' := by
  induction ops with
  | nil => exact fun e adds removes he hcount => ⟨e, adds, removes, rfl, he, hcount⟩
  | cons op rest ih =>
    intro e adds removes he hcount
    cases op with
    | addU =>
      obtain ⟨e1, ho, hadd, he1, hcase⟩ := add_unit_spec e he
      rcases hcase with ⟨h, rfl, hocc⟩ | ⟨rfl, rfl⟩
      · obtain ⟨e', a', r', hrun, he', hc'⟩ := ih e1 (adds + 1) removes he1 (by omega)
        exact ⟨e', a', r', by simp [runOps, hadd, hrun], he', hc'⟩
      · obtain ⟨e', a', r', hrun, he', hc'⟩ := ih e1 adds removes he1 hcount
        exact ⟨e', a', r', by simp [runOps, hadd, hrun], he', hc'⟩
    | removeU k =>
      obtain ⟨he1, htrue, hfalse⟩ := remove_unit_spec e k he
      rcases hb : (remove_unit e k).2 with _ | _
      · obtain ⟨e', a', r', hrun, he', hc'⟩ := ih (remove_unit e k).1 adds removes he1
          (by rw [hfalse hb]; exact hcount)
        exact ⟨e', a', r', by simp [runOps, hb, hrun], he', hc'⟩
      · obtain ⟨e', a', r', hrun, he', hc'⟩ := ih (remove_unit e k).1 adds (removes + 1) he1
          (by have := htrue hb; omega)
        exact ⟨e', a', r', by simp [runOps, hb, hrun], he', hc'⟩

theorem engineNew_inv : EngineInv engineNew :=
  ⟨[], FreeChain.nil, List.nodup_nil, fun j => by simp [engineNew]⟩

/-- C4.  Slot-allocator invariants over every `add_unit`/`remove_unit`
sequence from the fresh engine: no `unreachable!` panic fires, the number
of Occupied slots equals successful adds minus successful removes, and the
free list from the `free_unit` head is a duplicate-free chain visiting
exactly the Free slots (`EngineInv`).  Moreover a handle returned by a
successful `add_unit` indexes an Occupied slot, and an Occupied slot stays
Occupied across any `add_unit` and across `remove_unit` of any other
handle. -/
theorem C4_slot_allocator :
    (∀ ops : List AllocOp, ∃ er : Engine × Nat × Nat,
      runOps engineNew 0 0 ops = some er ∧ EngineInv er.1 ∧
      occCount er.1.units + er.2.2 = er.2.1) ∧
    (∀ e e' h, EngineInv e → add_unit e = some (e', some h) →
      ∃ s, e'.units[h]? = some (CUnit.unit s)) ∧
    (∀ e h s, e.units[h]? = some (CUnit.unit s) →
      (∀ e' ho, add_unit e = some (e', ho) → ∃ s', e'.units[h]? = some (CUnit.unit s')) ∧
      (∀ k, k ≠ h → ∃ s', ((remove_unit e k).1.units)[h]? = some (CUnit.unit s'))) := by
  refine ⟨fun ops => ?_, fun e e' h he hadd => ?_, fun e h s hocc => ⟨fun e' ho hadd => ?_, fun k hk => ?_⟩⟩
  · obtain ⟨e', a', r', hrun, he', hc'⟩ := runOps_spec ops engineNew 0 0 engineNew_inv rfl
    exact ⟨(e', a', r'), hrun, he', hc'⟩
  · rcases hh : e.units[e.free]? with _ | u
    · simp only [add_unit, hh] at hadd
      by_cases hlen : e.units.length < UNITS_CAP
      · rw [if_pos hlen] at hadd
        simp only [Option.some.injEq, Prod.mk.injEq] at hadd
        obtain ⟨rfl, hfh⟩ := hadd
        obtain rfl : e.free = h := by simpa using hfh
        have hfl : e.free = e.units.length := by
          obtain ⟨L, hc, _, _⟩ := he
          rcases FreeChain_cases hc with ⟨h1, _⟩ | ⟨next, rest, _, hp, _⟩
          · exact h1
          · rw [hp] at hh; exact Option.noConfusion hh
        refine ⟨false, ?_⟩
        rw [List.getElem?_append, if_neg (by omega), hfl]
        simp
      · rw [if_neg hlen] at hadd
        simp only [Option.some.injEq, Prod.mk.injEq] at hadd
        exact absurd hadd.2 (by simp)
    · cases u with
      | nextFreeUnit next =>
        simp only [add_unit, hh, Option.some.injEq, Prod.mk.injEq] at hadd
        obtain ⟨rfl, hfh⟩ := hadd
        obtain rfl : e.free = h := by simpa using hfh
        exact ⟨false, List.getElem?_set_eq_of_lt _ (getElem?_some_lt hh)⟩
      | unit _ =>
        simp only [add_unit, hh] at hadd
        exact Option.noConfusion hadd
  · rcases hh : e.units[e.free]? with _ | u
    · simp only [add_unit, hh] at hadd
      by_cases hlen : e.units.length < UNITS_CAP
      · rw [if_pos hlen] at hadd
        simp only [Option.some.injEq, Prod.mk.injEq] at hadd
        obtain ⟨rfl, -⟩ := hadd
        refine ⟨s, ?_⟩
        rw [List.getElem?_append, if_pos (getElem?_some_lt hocc)]
        exact hocc
      · rw [if_neg hlen] at hadd
        simp only [Option.some.injEq, Prod.mk.injEq] at hadd
        obtain ⟨rfl, -⟩ := hadd
        exact ⟨s, hocc⟩
    · cases u with
      | nextFreeUnit next =>
        simp only [add_unit, hh, Option.some.injEq, Prod.mk.injEq] at hadd
        obtain ⟨rfl, -⟩ := hadd
        have hne : e.free ≠ h := by
          intro hfh
          rw [hfh, hocc] at hh
          exact Option.noConfusion hh (fun h2 => CUnit.noConfusion h2)
        refine ⟨s, ?_⟩
        rw [List.getElem?_set_ne hne]
        exact hocc
      | unit _ =>
        simp only [add_unit, hh] at hadd
        exact Option.noConfusion hadd
  · rcases hh : e.units[k]? with _ | u
    · exact ⟨s, by simp only [remove_unit, hh]; exact hocc⟩
    · cases u with
      | nextFreeUnit nx => exact ⟨s, by simp only [remove_unit, hh]; exact hocc⟩
      | unit _ =>
        refine ⟨s, ?_⟩
        simp only [remove_unit, hh]
        rw [List.getElem?_set_ne hk]
        exact hocc

/-- C4 witness: each arm of `C4_slot_allocator` at a concrete input. -/
theorem C4_slot_allocator_witness :
    (∃ er : Engine × Nat × Nat,
      runOps engineNew 0 0 [AllocOp.addU, AllocOp.addU, AllocOp.removeU 0, AllocOp.addU] =
        some er ∧ EngineInv er.1 ∧ occCount er.1.units + er.2.2 = er.2.1) ∧
    (∃ s, (Engine.mk [CUnit.unit false] 1).units[0]? = some (CUnit.unit s)) ∧
    (∃ s', (Engine.mk ([CUnit.unit true] ++ [CUnit.unit false]) 2).units[0]?
      = some (CUnit.unit s')) ∧
    (∃ s', ((remove_unit (Engine.mk [CUnit.unit true] 1) 5).1.units)[0]? = some (CUnit.unit s')) := by
  refine ⟨C4_slot_allocator.1 _, ?_, ?_, ?_⟩
  · exact C4_slot_allocator.2.1 engineNew (Engine.mk [CUnit.unit false] 1) 0 engineNew_inv rfl
  · exact (C4_slot_allocator.2.2 (Engine.mk [CUnit.unit true] 1) 0 true rfl).1
      (Engine.mk ([CUnit.unit true] ++ [CUnit.unit false]) 2) (some 1) rfl
  · exact (C4_slot_allocator.2.2 (Engine.mk [CUnit.unit true] 1) 0 true rfl).2 5 (by decide)

theorem notifySlots_zero (units : List CUnit) (lo : Nat) : notifySlots units lo 0 = ([], units) :=
  rfl

theorem notifySlots_succ_pos {units : List CUnit} {lo : Nat} (k : Nat)
    (h : units[lo]? = some (.unit true)) :
    notifySlots units lo (k + 1) =
      ((lo, false) :: (notifySlots (units.set lo (.unit false)) (lo + 1) k).1,
        (notifySlots (units.set lo (.unit false)) (lo + 1) k).2) := by
  simp only [notifySlots, h]

theorem notifySlots_succ_neg {units : List CUnit} {lo : Nat} (k : Nat)
    (h : units[lo]? ≠ some (.unit true)) :
    notifySlots units lo (k + 1) = notifySlots units (lo + 1) k := by
  rw [notifySlots]
  rcases hu : units[lo]? with _ | u
  · rfl
  · cases u with
    | nextFreeUnit nx => rfl
    | unit s =>
      cases s
      · rfl
      · exact absurd hu h

theorem if_cond_congr {c1 c2 : Prop} [Decidable c1] [Decidable c2] {α : Type} {x y : α}
    (h : c1 ↔ c2) : (if c1 then x else y) = (if c2 then x else y) := by
  rcases Decidable.em c2 with h2 | h2
  · rw [if_pos (h.mpr h2), if_pos h2]
  · rw [if_neg (fun hc => h2 (h.mp hc)), if_neg h2]

theorem notifySlots_spec : ∀ (k : Nat) (units : List CUnit) (lo : Nat),
    ((notifySlots units lo k).2.length = units.length) ∧
    (∀ j, (notifySlots units lo k).2[j]? =
      if lo ≤ j ∧ j < lo + k ∧ units[j]? = some (.unit true)
      then some (.unit false) else units[j]?) ∧
    (∀ e ∈ (notifySlots units lo k).1, e.2 = false) ∧
    (∀ j, (notifySlots units lo k).1.countP (fun e => e.1 == j) =
      if lo ≤ j ∧ j < lo + k ∧ units[j]? = some (.unit true) then 1 else 0) := by
  intro k
  induction k with
  | zero =>
    intro units lo
    refine ⟨rfl, fun j => ?_, by simp [notifySlots_zero], fun j => ?_⟩
    · rw [notifySlots_zero, if_neg (by rintro ⟨h1, h2, -⟩; omega)]
    · rw [notifySlots_zero, if_neg (by rintro ⟨h1, h2, -⟩; omega)]
      rfl
  | succ k ih =>
    intro units lo
    by_cases hu : units[lo]? = some (.unit true)
    · have hlt : lo < units.length := getElem?_some_lt hu
      obtain ⟨ihlen, ihget, ihev, ihcount⟩ := ih (units.set lo (.unit false)) (lo + 1)
      rw [notifySlots_succ_pos k hu]
      dsimp only
      refine ⟨by simpa using ihlen, fun j => ?_, ?_, fun j => ?_⟩
      · by_cases hj : j = lo
        · subst hj
          rw [ihget j]
          have hn : ¬(j + 1 ≤ j ∧ j < j + 1 + k ∧
              (units.set j (CUnit.unit false))[j]? = some (CUnit.unit true)) := by
            rintro ⟨a, -, -⟩; omega
          rw [if_neg hn, List.getElem?_set_eq_of_lt _ hlt,
            if_pos ⟨le_refl j, by omega, hu⟩]
        · have hne : lo ≠ j := fun h => hj h.symm
          have hthis := ihget j
          rw [List.getElem?_set_ne hne] at hthis
          rw [hthis]
          exact if_cond_congr ⟨fun ⟨a, b, c⟩ => ⟨by omega, by omega, c⟩,
            fun ⟨a, b, c⟩ => ⟨by omega, by omega, c⟩⟩
      · intro e he
        rcases List.mem_cons.mp he with rfl | he2
        · rfl
        · exact ihev e he2
      · rw [List.countP_cons]
        by_cases hj : j = lo
        · subst hj
          rw [ihcount j]
          have hn : ¬(j + 1 ≤ j ∧ j < j + 1 + k ∧
              (units.set j (CUnit.unit false))[j]? = some (CUnit.unit true)) := by
            rintro ⟨a, -, -⟩; omega
          have hp : j ≤ j ∧ j < j + (k + 1) ∧ units[j]? = some (CUnit.unit true) :=
            ⟨le_refl j, by omega, hu⟩
          rw [if_neg hn, if_pos hp]
          simp
        · have hne : lo ≠ j := fun h => hj h.symm
          have hthis := ihcount j
          rw [List.getElem?_set_ne hne] at hthis
          rw [hthis]
          have hb : (((lo, false) : Nat × Bool).1 == j) = false := by
            simp only [beq_eq_false_iff_ne, ne_eq]
            exact hne
          rw [hb]
          simp only [Bool.false_eq_true, if_false, Nat.add_zero]
          exact if_cond_congr ⟨fun ⟨a, b, c⟩ => ⟨by omega, by omega, c⟩,
            fun ⟨a, b, c⟩ => ⟨by omega, by omega, c⟩⟩
    · obtain ⟨ihlen, ihget, ihev, ihcount⟩ := ih units (lo + 1)
      rw [notifySlots_succ_neg k hu]
      refine ⟨ihlen, fun j => ?_, ihev, fun j => ?_⟩
      · by_cases hj : j = lo
        · subst hj
          rw [ihget j, if_neg (by rintro ⟨a, -, -⟩; omega),
            if_neg (by rintro ⟨-, -, c⟩; exact hu c)]
        · rw [ihget j]
          exact if_cond_congr ⟨fun ⟨a, b, c⟩ => ⟨by omega, by omega, c⟩,
            fun ⟨a, b, c⟩ => ⟨by omega, by omega, c⟩⟩
      · by_cases hj : j = lo
        · subst hj
          rw [ihcount j, if_neg (by rintro ⟨a, -, -⟩; omega),
            if_neg (by rintro ⟨-, -, c⟩; exact hu c)]
        · rw [ihcount j]
          exact if_cond_congr ⟨fun ⟨a, b, c⟩ => ⟨by omega, by omega, c⟩,
            fun ⟨a, b, c⟩ => ⟨by omega, by omega, c⟩⟩

theorem dispatchPdus_nil (units : List CUnit) (last : Nat) :
    dispatchPdus units last [] = some ([], units, last) := rfl

theorem dispatchPdus_cons_sent {units : List CUnit} {last idx : Nat} {rest : List Nat}
    {evs : List (Nat × Bool)} {us : List CUnit} {l3 : Nat}
    (h : (notifySlots units last (idx - last)).2[idx]? = some (.unit true))
    (hrec : dispatchPdus ((notifySlots units last (idx - last)).2.set idx (.unit false))
      (idx + 1) rest = some (evs, us, l3)) :
    dispatchPdus units last (idx :: rest) =
      some ((notifySlots units last (idx - last)).1 ++ (idx, true) :: evs, us, l3) := by
  simp only [dispatchPdus, h, hrec]
  rw [if_pos trivial]

theorem dispatchPdus_cons_nounit {units : List CUnit} {last idx : Nat} {rest : List Nat}
    {evs : List (Nat × Bool)} {us : List CUnit} {l3 : Nat}
    (hno : ∀ b, (notifySlots units last (idx - last)).2[idx]? ≠ some (.unit b))
    (hrec : dispatchPdus (notifySlots units last (idx - last)).2 (idx + 1) rest =
      some (evs, us, l3)) :
    dispatchPdus units last (idx :: rest) =
      some ((notifySlots units last (idx - last)).1 ++ evs, us, l3) := by
  rcases hh : (notifySlots units last (idx - last)).2[idx]? with _ | u
  · simp only [dispatchPdus, hh, hrec]
  · cases u with
    | nextFreeUnit nx => simp only [dispatchPdus, hh, hrec]
    | unit b => exact absurd hh (hno b)

theorem countP_false_events {evs : List (Nat × Bool)} (hev : ∀ e ∈ evs, e.2 = false) (j : Nat) :
    evs.countP (fun e => e.1 == j && e.2) = 0 :=
  List.countP_eq_zero.mpr (fun e he => by rw [hev e he]; simp)

theorem someCount_le_count (evs : List (Nat × Bool)) (j : Nat) :
    evs.countP (fun e => e.1 == j && e.2) ≤ evs.countP (fun e => e.1 == j) :=
  evs.countP_mono_left (fun e _ h => by
    rcases Bool.and_eq_true_iff.mp h with ⟨h1, -⟩
    exact h1)

theorem dispatchPdus_spec : ∀ (pdus : List Nat) (units : List CUnit) (last : Nat),
    List.Pairwise (· < ·) pdus →
    (∀ i ∈ pdus, last ≤ i) →
    (∀ i ∈ pdus, units[i]? ≠ some (.unit false)) →
    ∃ evs us l3, dispatchPdus units last pdus = some (evs, us, l3) ∧
      us.length = units.length ∧
      last ≤ l3 ∧
      (∀ i ∈ pdus, i < l3) ∧
      (∀ j, j < last ∨ l3 ≤ j → us[j]? = units[j]? ∧
        evs.countP (fun e => e.1 == j) = 0) ∧
      (∀ j, last ≤ j → j < l3 → units[j]? = some (.unit true) →
        evs.countP (fun e => e.1 == j) = 1 ∧
        evs.countP (fun e => e.1 == j && e.2) = (if j ∈ pdus then 1 else 0) ∧
        us[j]? = some (.unit false)) ∧
      (∀ j, units[j]? ≠ some (.unit true) →
        evs.countP (fun e => e.1 == j) = 0 ∧ us[j]? = units[j]?) := by
  intro pdus
  induction pdus with
  | nil =>
    intro units last _ _ _
    refine ⟨[], units, last, dispatchPdus_nil units last, rfl, le_refl _, by simp,
      fun j _ => ⟨rfl, rfl⟩, fun j h1 h2 _ => absurd h2 (by omega), fun j _ => ⟨rfl, rfl⟩⟩
  | cons idx rest ih =>
    intro units last hsort hlb hassert
    have hli : last ≤ idx := hlb idx (List.mem_cons_self _ _)
    have hrest_gt : ∀ i ∈ rest, idx < i := fun i hi => (List.pairwise_cons.mp hsort).1 i hi
    have hsort' : List.Pairwise (· < ·) rest := (List.pairwise_cons.mp hsort).2
    obtain ⟨hlen1, hget1, hev1, hcount1⟩ := notifySlots_spec (idx - last) units last
    have hu1 : ∀ j, idx ≤ j → (notifySlots units last (idx - last)).2[j]? = units[j]? := by
      intro j hj
      rw [hget1 j, if_neg (by rintro ⟨a, b, -⟩; omega)]
    have hr1out : ∀ j, j < last ∨ idx ≤ j →
        (notifySlots units last (idx - last)).2[j]? = units[j]? := by
      intro j hj
      rw [hget1 j, if_neg (by rintro ⟨a, b, -⟩; omega)]
    have hcount0_out : ∀ j, j < last ∨ idx ≤ j →
        (notifySlots units last (idx - last)).1.countP (fun e => e.1 == j) = 0 := by
      intro j hj
      rw [hcount1 j, if_neg (by rintro ⟨a, b, -⟩; omega)]
    rcases hcase : units[idx]? with _ | u
    · -- slot absent: default branch
      have hno : ∀ b, (notifySlots units last (idx - last)).2[idx]? ≠ some (.unit b) := by
        intro b
        rw [hu1 idx (le_refl idx), hcase]
        exact fun h => Option.noConfusion h
      have hassert' : ∀ i ∈ rest, (notifySlots units last (idx - last)).2[i]? ≠
          some (.unit false) := by
        intro i hi
        rw [hu1 i (by have := hrest_gt i hi; omega)]
        exact hassert i (List.mem_cons_of_mem _ hi)
      obtain ⟨evs3, us3, l3, hdisp, hlen3, hle3, hmem3, hout3, hone3, hnon3⟩ :=
        ih (notifySlots units last (idx - last)).2 (idx + 1) hsort'
          (fun i hi => by have := hrest_gt i hi; omega) hassert'
      refine ⟨(notifySlots units last (idx - last)).1 ++ evs3, us3, l3,
        dispatchPdus_cons_nounit hno hdisp, hlen3.trans hlen1, by omega,
        ?_, ?_, ?_, ?_⟩
      · intro i hi
        rcases List.mem_cons.mp hi with rfl | hi2
        · omega
        · exact hmem3 i hi2
      · intro j hj
        obtain ⟨ho1, ho2⟩ := hout3 j (by omega)
        refine ⟨ho1.trans (hr1out j (by omega)), ?_⟩
        rw [List.countP_append, hcount0_out j (by omega), ho2]
      · intro j hjl hjr hsent
        rcases Nat.lt_trichotomy j idx with hj | hj | hj
        · have hnj : j ∉ idx :: rest := by
            intro hmem
            rcases List.mem_cons.mp hmem with rfl | h2
            · omega
            · have := hrest_gt j h2; omega
          obtain ⟨ho1, ho2⟩ := hout3 j (by omega)
          refine ⟨?_, ?_, ?_⟩
          · rw [List.countP_append, hcount1 j, if_pos ⟨hjl, by omega, hsent⟩, ho2]
          · rw [List.countP_append, countP_false_events hev1 j, if_neg hnj]
            have := someCount_le_count evs3 j
            omega
          · rw [ho1, hget1 j, if_pos ⟨hjl, by omega, hsent⟩]
        · subst hj
          rw [hcase] at hsent
          exact Option.noConfusion hsent
        · have hsent' : (notifySlots units last (idx - last)).2[j]? = some (.unit true) := by
            rw [hu1 j (by omega)]; exact hsent
          obtain ⟨h1, h2, h3⟩ := hone3 j (by omega) hjr hsent'
          have hjm : (if j ∈ idx :: rest then (1 : Nat) else 0) = (if j ∈ rest then 1 else 0) := by
            refine if_cond_congr ?_
            simp only [List.mem_cons]
            constructor
            · rintro (rfl | h)
              · omega
              · exact h
            · exact fun h => Or.inr h
          refine ⟨?_, ?_, h3⟩
          · rw [List.countP_append, hcount0_out j (by omega), h1]
          · rw [List.countP_append, countP_false_events hev1 j, h2, hjm]
            simp
      · intro j hns
        have hr1j : (notifySlots units last (idx - last)).2[j]? = units[j]? := by
          rw [hget1 j, if_neg (by rintro ⟨-, -, c⟩; exact hns c)]
        obtain ⟨h1, h2⟩ := hnon3 j (by rw [hr1j]; exact hns)
        refine ⟨?_, h2.trans hr1j⟩
        rw [List.countP_append, h1, hcount1 j, if_neg (by rintro ⟨-, -, c⟩; exact hns c)]
    · cases u with
      | nextFreeUnit nx =>
        -- free slot named by the PDU: default branch as well
        have hno : ∀ b, (notifySlots units last (idx - last)).2[idx]? ≠ some (.unit b) := by
          intro b
          rw [hu1 idx (le_refl idx), hcase]
          exact fun h => Option.noConfusion h (fun h2 => CUnit.noConfusion h2)
        have hassert' : ∀ i ∈ rest, (notifySlots units last (idx - last)).2[i]? ≠
            some (.unit false) := by
          intro i hi
          rw [hu1 i (by have := hrest_gt i hi; omega)]
          exact hassert i (List.mem_cons_of_mem _ hi)
        obtain ⟨evs3, us3, l3, hdisp, hlen3, hle3, hmem3, hout3, hone3, hnon3⟩ :=
          ih (notifySlots units last (idx - last)).2 (idx + 1) hsort'
            (fun i hi => by have := hrest_gt i hi; omega) hassert'
        refine ⟨(notifySlots units last (idx - last)).1 ++ evs3, us3, l3,
          dispatchPdus_cons_nounit hno hdisp, hlen3.trans hlen1, by omega,
          ?_, ?_, ?_, ?_⟩
        · intro i hi
          rcases List.mem_cons.mp hi with rfl | hi2
          · omega
          · exact hmem3 i hi2
        · intro j hj
          obtain ⟨ho1, ho2⟩ := hout3 j (by omega)
          refine ⟨ho1.trans (hr1out j (by omega)), ?_⟩
          rw [List.countP_append, hcount0_out j (by omega), ho2]
        · intro j hjl hjr hsent
          rcases Nat.lt_trichotomy j idx with hj | hj | hj
          · have hnj : j ∉ idx :: rest := by
              intro hmem
              rcases List.mem_cons.mp hmem with rfl | h2
              · omega
              · have := hrest_gt j h2; omega
            obtain ⟨ho1, ho2⟩ := hout3 j (by omega)
            refine ⟨?_, ?_, ?_⟩
            · rw [List.countP_append, hcount1 j, if_pos ⟨hjl, by omega, hsent⟩, ho2]
            · rw [List.countP_append, countP_false_events hev1 j, if_neg hnj]
              have := someCount_le_count evs3 j
              omega
            · rw [ho1, hget1 j, if_pos ⟨hjl, by omega, hsent⟩]
          · subst hj
            rw [hcase] at hsent
            exact Option.noConfusion hsent (fun h2 => CUnit.noConfusion h2)
          · have hsent' : (notifySlots units last (idx - last)).2[j]? = some (.unit true) := by
              rw [hu1 j (by omega)]; exact hsent
            obtain ⟨h1, h2, h3⟩ := hone3 j (by omega) hjr hsent'
            have hjm : (if j ∈ idx :: rest then (1 : Nat) else 0) = (if j ∈ rest then 1 else 0) := by
              refine if_cond_congr ?_
              simp only [List.mem_cons]
              constructor
              · rintro (rfl | h)
                · omega
                · exact h
              · exact fun h => Or.inr h
            refine ⟨?_, ?_, h3⟩
            · rw [List.countP_append, hcount0_out j (by omega), h1]
            · rw [List.countP_append, countP_false_events hev1 j, h2, hjm]
              simp
        · intro j hns
          have hr1j : (notifySlots units last (idx - last)).2[j]? = units[j]? := by
            rw [hget1 j, if_neg (by rintro ⟨-, -, c⟩; exact hns c)]
          obtain ⟨h1, h2⟩ := hnon3 j (by rw [hr1j]; exact hns)
          refine ⟨?_, h2.trans hr1j⟩
          rw [List.countP_append, h1, hcount1 j, if_neg (by rintro ⟨-, -, c⟩; exact hns c)]
      | unit b =>
        cases b with
        | false =>
          exact absurd hcase (hassert idx (List.mem_cons_self _ _))
        | true =>
          -- sent slot: deliver Some
          have hu1idx : (notifySlots units last (idx - last)).2[idx]? = some (.unit true) := by
            rw [hu1 idx (le_refl idx)]; exact hcase
          have hlt_idx : idx < units.length := getElem?_some_lt hcase
          have hassert' : ∀ i ∈ rest,
              ((notifySlots units last (idx - last)).2.set idx (.unit false))[i]? ≠
              some (.unit false) := by
            intro i hi
            have hgt := hrest_gt i hi
            rw [List.getElem?_set_ne (by omega), hu1 i (by omega)]
            exact hassert i (List.mem_cons_of_mem _ hi)
          obtain ⟨evs3, us3, l3, hdisp, hlen3, hle3, hmem3, hout3, hone3, hnon3⟩ :=
            ih ((notifySlots units last (idx - last)).2.set idx (.unit false)) (idx + 1) hsort'
              (fun i hi => by have := hrest_gt i hi; omega) hassert'
          refine ⟨(notifySlots units last (idx - last)).1 ++ (idx, true) :: evs3, us3, l3,
            dispatchPdus_cons_sent hu1idx hdisp,
            by rw [hlen3, List.length_set, hlen1], by omega, ?_, ?_, ?_, ?_⟩
          · intro i hi
            rcases List.mem_cons.mp hi with rfl | hi2
            · omega
            · exact hmem3 i hi2
          · intro j hj
            obtain ⟨ho1, ho2⟩ := hout3 j (by omega)
            have hju2 : ((notifySlots units last (idx - last)).2.set idx (.unit false))[j]? =
                units[j]? := by
              rw [List.getElem?_set_ne (by omega)]
              exact hr1out j (by omega)
            refine ⟨ho1.trans hju2, ?_⟩
            rw [List.countP_append, hcount0_out j (by omega),
              List.countP_cons_of_neg _ _ (by simp; omega), ho2]
          · intro j hjl hjr hsent
            rcases Nat.lt_trichotomy j idx with hj | hj | hj
            · have hnj : j ∉ idx :: rest := by
                intro hmem
                rcases List.mem_cons.mp hmem with rfl | h2
                · omega
                · have := hrest_gt j h2; omega
              obtain ⟨ho1, ho2⟩ := hout3 j (by omega)
              have hbj : (((idx, true) : Nat × Bool).1 == j) = false :=
                beq_eq_false_iff_ne.mpr (by omega)
              refine ⟨?_, ?_, ?_⟩
              · rw [List.countP_append, hcount1 j, if_pos ⟨hjl, by omega, hsent⟩,
                  List.countP_cons_of_neg _ _ (by simp; omega), ho2]
              · rw [List.countP_append, countP_false_events hev1 j,
                  List.countP_cons_of_neg _ _ (by simp; omega), if_neg hnj]
                have hle := someCount_le_count evs3 j
                omega
              · have hju2 : ((notifySlots units last (idx - last)).2.set idx
                    (.unit false))[j]? = some (.unit false) := by
                  rw [List.getElem?_set_ne (by omega), hget1 j,
                    if_pos ⟨hjl, by omega, hsent⟩]
                rw [ho1, hju2]
            · subst hj
              have hju2 : ((notifySlots units last (j - last)).2.set j
                  (.unit false))[j]? = some (.unit false) :=
                List.getElem?_set_eq_of_lt _ (by rw [hlen1]; exact hlt_idx)
              obtain ⟨ho1, ho2⟩ := hout3 j (by omega)
              refine ⟨?_, ?_, ?_⟩
              · rw [List.countP_append, hcount0_out j (by omega),
                  List.countP_cons_of_pos _ _ (by simp), ho2]
              · have hle := someCount_le_count evs3 j
                rw [List.countP_append, countP_false_events hev1 j,
                  List.countP_cons_of_pos _ _ (by simp), if_pos (List.mem_cons_self _ _)]
                omega
              · rw [ho1, hju2]
            · have hsent' : ((notifySlots units last (idx - last)).2.set idx
                  (.unit false))[j]? = some (.unit true) := by
                rw [List.getElem?_set_ne (by omega), hu1 j (by omega)]
                exact hsent
              obtain ⟨h1, h2, h3⟩ := hone3 j (by omega) hjr hsent'
              have hjm : (if j ∈ idx :: rest then (1 : Nat) else 0) = (if j ∈ rest then 1 else 0) := by
                refine if_cond_congr ?_
                simp only [List.mem_cons]
                constructor
                · rintro (rfl | h)
                  · omega
                  · exact h
                · exact fun h => Or.inr h
              refine ⟨?_, ?_, h3⟩
              · rw [List.countP_append, hcount0_out j (by omega),
                  List.countP_cons_of_neg _ _ (by simp; omega), h1]
              · rw [List.countP_append, countP_false_events hev1 j,
                  List.countP_cons_of_neg _ _ (by simp; omega), h2, hjm]
                simp
          · intro j hns
            have hnij : idx ≠ j := by
              intro h
              rw [← h, hcase] at hns
              exact hns rfl
            have hr1j : (notifySlots units last (idx - last)).2[j]? = units[j]? := by
              rw [hget1 j, if_neg (by rintro ⟨-, -, c⟩; exact hns c)]
            have hju2 : ((notifySlots units last (idx - last)).2.set idx
                (.unit false))[j]? = units[j]? := by
              rw [List.getElem?_set_ne hnij]
              exact hr1j
            obtain ⟨h1, h2⟩ := hnon3 j (by rw [hju2]; exact hns)
            refine ⟨?_, h2.trans hju2⟩
            rw [List.countP_append, hcount1 j,
              if_neg (by rintro ⟨-, -, c⟩; exact hns c),
              List.countP_cons_of_neg _ _ (by simp; exact hnij), h1]

theorem mem_true_iff_someCount (evs : List (Nat × Bool)) (j : Nat) :
    (j, true) ∈ evs ↔ 0 < evs.countP (fun e => e.1 == j && e.2) := by
  rw [List.countP_pos_iff]
  constructor
  · intro h
    exact ⟨(j, true), h, by simp⟩
  · rintro ⟨⟨a, b⟩, hmem, hp⟩
    simp only [Bool.and_eq_true, beq_iff_eq] at hp
    obtain ⟨rfl, rfl⟩ := hp
    exact hmem

/-- C3.  Dispatch coverage of `CyclicUnits::process`: when the received
PDU indices are strictly increasing (replies come back in emission order)
and no PDU names an Occupied slot whose `sent_flag` is false (the
`assert!` of line 233), the pass completes without panicking, every slot
with `sent_flag = true` receives exactly one `recieve_and_process` call,
that call carries `Some(ReceivedData)` exactly when a received PDU carries
the slot's index (and `None` otherwise), and no other slot receives a
call. -/
theorem C3_dispatch_coverage (units : List CUnit) (pdus : List Nat)
    (hsort : List.Pairwise (· < ·) pdus)
    (hassert : ∀ i ∈ pdus, units[i]? ≠ some (.unit false)) :
    ∃ evs us, processCyclic units pdus = some (evs, us) ∧
      (∀ j, units[j]? = some (.unit true) →
        evs.countP (fun e => e.1 == j) = 1 ∧ ((j, true) ∈ evs ↔ j ∈ pdus)) ∧
      (∀ j, units[j]? ≠ some (.unit true) → evs.countP (fun e => e.1 == j) = 0) := by
  obtain ⟨evs1, u1, l3, hdisp, hlen, hle, hmem, hout, hone, hnon⟩ :=
    dispatchPdus_spec pdus units 0 hsort (fun i _ => Nat.zero_le i) hassert
  obtain ⟨hlen2, hget2, hev2, hcount2⟩ := notifySlots_spec (u1.length - l3) u1 l3
  refine ⟨evs1 ++ (notifySlots u1 l3 (u1.length - l3)).1,
    (notifySlots u1 l3 (u1.length - l3)).2, by simp only [processCyclic, hdisp], ?_, ?_⟩
  · intro j hsent
    have hjlen : j < units.length := getElem?_some_lt hsent
    rcases Nat.lt_or_ge j l3 with hj | hj
    · obtain ⟨h1, h2, h3⟩ := hone j (Nat.zero_le j) hj hsent
      have hc2 : (notifySlots u1 l3 (u1.length - l3)).1.countP (fun e => e.1 == j) = 0 := by
        rw [hcount2 j, if_neg (by rintro ⟨a, -, -⟩; omega)]
      refine ⟨by rw [List.countP_append, h1, hc2], ?_⟩
      rw [mem_true_iff_someCount, List.countP_append, h2,
        countP_false_events hev2 j]
      by_cases hmem2 : j ∈ pdus
      · simp [hmem2]
      · simp [hmem2]
    · obtain ⟨ho1, ho2⟩ := hout j (Or.inr hj)
      have hu1j : u1[j]? = some (.unit true) := by rw [ho1]; exact hsent
      have hc2 : (notifySlots u1 l3 (u1.length - l3)).1.countP (fun e => e.1 == j) = 1 := by
        rw [hcount2 j, if_pos ⟨hj, by omega, hu1j⟩]
      refine ⟨by rw [List.countP_append, ho2, hc2], ?_⟩
      have hnot : j ∉ pdus := fun h => by have := hmem j h; omega
      rw [mem_true_iff_someCount, List.countP_append, countP_false_events hev2 j]
      have hle2 := someCount_le_count evs1 j
      constructor
      · intro h
        omega
      · intro h
        exact absurd h hnot
  · intro j hns
    obtain ⟨h1, h2⟩ := hnon j hns
    have hc2 : (notifySlots u1 l3 (u1.length - l3)).1.countP (fun e => e.1 == j) = 0 := by
      rw [hcount2 j, if_neg (by rintro ⟨-, -, c⟩; rw [h2] at c; exact hns c)]
    rw [List.countP_append, h1, hc2]

/-- C3 witness: three slots (0 and 1 sent, 2 free), one received PDU with
index 1; slot 0 gets one `None`, slot 1 one `Some`, slot 2 nothing. -/
theorem C3_dispatch_coverage_witness :
    ∃ evs us, processCyclic [CUnit.unit true, CUnit.unit true, CUnit.nextFreeUnit 3] [1] =
      some (evs, us) ∧
      evs.countP (fun e => e.1 == 0) = 1 ∧ ((0, true) ∈ evs ↔ 0 ∈ [1]) ∧
      evs.countP (fun e => e.1 == 1) = 1 ∧ ((1, true) ∈ evs ↔ 1 ∈ [1]) ∧
      evs.countP (fun e => e.1 == 2) = 0 := by
  obtain ⟨evs, us, h, hone, hnon⟩ :=
    C3_dispatch_coverage [CUnit.unit true, CUnit.unit true, CUnit.nextFreeUnit 3] [1]
      (by simp) (by decide)
  exact ⟨evs, us, h, (hone 0 rfl).1, (hone 0 rfl).2, (hone 1 rfl).1, (hone 1 rfl).2,
    hnon 2 (by decide)⟩

/-- C9.  A receive timeout makes `EtherCATInterface::poll` return
`ReceiveTimeout` to its caller; the engine's `process` treats exactly that
error as non-fatal and still runs the dispatch pass, in which (no reply
PDUs having arrived) every slot with `sent_flag = true` receives exactly
one `None` notification; and a unit receiving `None` latches
`LostCommand`, as `AlStateTransfer::recieve_and_process` shows. -/
theorem C9_receive_timeout_lost (units : List CUnit) :
    iface_poll true .timeout = .error .receiveTimeout ∧
    engineProcess units (iface_poll true .timeout) [] = .ok (processCyclic units []) ∧
    (∃ evs us, processCyclic units [] = some (evs, us) ∧
      ∀ j, units[j]? = some (.unit true) →
        evs.countP (fun e => e.1 == j) = 1 ∧ (j, false) ∈ evs) ∧
    (∀ (u : ALST) (t : Nat), (alst_recieve_and_process u none t).state = .error .lostCommand) := by
  obtain ⟨hlen2, hget2, hev2, hcount2⟩ := notifySlots_spec (units.length - 0) units 0
  refine ⟨rfl, rfl, ⟨[] ++ (notifySlots units 0 (units.length - 0)).1,
    (notifySlots units 0 (units.length - 0)).2, rfl, ?_⟩, fun u t => rfl⟩
  intro j hsent
  have hjlen : j < units.length := getElem?_some_lt hsent
  have hc : (notifySlots units 0 (units.length - 0)).1.countP (fun e => e.1 == j) = 1 := by
    rw [hcount2 j, if_pos ⟨Nat.zero_le j, by omega, hsent⟩]
  refine ⟨by rw [List.nil_append, hc], ?_⟩
  have hpos : 0 < (notifySlots units 0 (units.length - 0)).1.countP (fun e => e.1 == j) := by
    omega
  obtain ⟨e, hmem, hp⟩ := List.countP_pos_iff.mp hpos
  have he2 := hev2 e hmem
  rcases e with ⟨a, b⟩
  simp only [beq_iff_eq] at hp
  subst hp
  simp only at he2
  subst he2
  exact List.mem_append_right _ hmem

/-- C9 witness: one sent slot and one free slot. -/
theorem C9_receive_timeout_lost_witness :
    iface_poll true .timeout = .error .receiveTimeout ∧
    (∃ evs us, processCyclic [CUnit.unit true, CUnit.nextFreeUnit 2] [] = some (evs, us) ∧
      evs.countP (fun e => e.1 == 0) = 1 ∧ (0, false) ∈ evs) := by
  obtain ⟨h1, h2, ⟨evs, us, hp, hall⟩, h4⟩ :=
    C9_receive_timeout_lost [CUnit.unit true, CUnit.nextFreeUnit 2]
  exact ⟨h1, evs, us, hp, (hall 0 rfl).1, (hall 0 rfl).2⟩
